import Mathlib

/-!
# Verification of the outbound-call governance layer of the bitbucket-mcp server

This file gives a shallow embedding, in Lean 4, of the three core components of
the repository — the retrying request executor (`BitbucketAPI.makeRequest`), the
multi-tier rate limiter (`rate-limiting.ts`), and the bounded LRU + TTL cache —
and proves (or refutes) the behavioural properties stated in the specification.

JavaScript numbers are modelled by `ℚ` (all quantities involved — millisecond
timestamps, token counts, rates — are exact rationals in every scenario treated
here), the insertion-ordered JavaScript `Map` by an association list, and the
`Date.now()` clock by an explicit `now : ℚ` argument threaded through each
operation.
-/

namespace BitbucketMcp

/-! ## Request executor (`BitbucketAPI.makeRequest`)

The transport (`fetch` racing an abort timer) is abstracted as a function
`outcomes : ℕ → AttemptOutcome` giving, for each 0-based attempt index, what
that invocation of the transport does: return an `ok` response, return a
non-`ok` HTTP response with a given status, reject with a network-level error,
or exceed the per-attempt timeout (the `AbortController` fires, so `fetch`
rejects with an `AbortError`). -/

/-- What one invocation of the transport call does. -/
inductive AttemptOutcome : Type
  | ok
  | httpError (status : ℕ)
  | networkError
  | timeout
deriving DecidableEq

/-- Classified failures as surfaced by `makeRequest` (the `ApiError` values it
throws): an HTTP error carrying its status, a network-level error, the
timeout error built from an `AbortError`, and the generic
`Request failed after all retries` error of the post-loop line. -/
inductive ApiFailure : Type
  | http (status : ℕ)
  | network
  | requestTimeout
  | generic
deriving DecidableEq

/-- Errors as they escape the `try` block of one loop iteration, before the
`catch` block classifies them. -/
inductive Raised : Type
  | api (e : ApiFailure)
  | abortError
  | fetchError
deriving DecidableEq

/-- Result of executing the `try` block of one iteration of the retry loop:
the block `return`s the parsed body, raises an exception (to be handled by the
`catch` block), or executes `continue` directly (the server-error path when
`attempt < retries`). -/
inductive TryOutcome : Type
  | returned
  | raised (r : Raised)
  | continued (lastError : ApiFailure)
deriving DecidableEq

/-- Net effect of one full iteration (its `try` block together with its
`catch` block): leave the loop with a result, or go to the next attempt after
the fixed delay, remembering the error as `lastError`. -/
inductive IterResult : Type
  | done (r : Except ApiFailure Unit)
  | retry (lastError : ApiFailure)

/-- The `try` block of the loop body of `makeRequest`.
On a non-`ok` response with a 4xx status the error is thrown (note that this
`throw` sits inside the `try`, so it lands in the `catch` block below); on a
5xx (or other non-`ok`) status the error is stored in `lastError` and the
iteration `continue`s when attempts remain, else the error is thrown; a
timeout shows up as the `fetch` promise rejecting with an `AbortError`; any
other transport rejection escapes as a plain fetch error. -/
def tryBlock (retries attempt : ℕ) : AttemptOutcome → TryOutcome
  | .ok => .returned
  | .httpError s =>
      if 400 ≤ s ∧ s < 500 then
        .raised (.api (.http s))
      else if attempt < retries then
        .continued (.http s)
      else
        .raised (.api (.http s))
  | .networkError => .raised .fetchError
  | .timeout => .raised .abortError

/-- The `catch` block of the loop body of `makeRequest`: an `AbortError` is turned
into the timeout error, anything else is kept as is; the caught error becomes
`lastError`, and the iteration retries when `attempt < retries`, otherwise it
throws `lastError`. -/
def catchBlock (retries attempt : ℕ) (r : Raised) : IterResult :=
  let e : ApiFailure :=
    match r with
    | .abortError => .requestTimeout
    | .fetchError => .network
    | .api e0 => e0
  if attempt < retries then .retry e else .done (.error e)

/-- One full iteration of the retry loop: the `try` block, with raised errors
routed through the `catch` block. -/
def loopIter (retries attempt : ℕ) (o : AttemptOutcome) : IterResult :=
  match tryBlock retries attempt o with
  | .returned => .done (.ok ())
  | .continued e => .retry e
  | .raised r => catchBlock retries attempt r

/-- The loop `for (attempt = 0; attempt <= retries; attempt++)`, by structural
recursion on the number of iterations left (`fuel`), which `makeRequest` seeds
with `retries + 1`.  Exhausting the fuel is the post-loop line
`throw lastError || new Error(...)`, the generic request-failed error.
Returns the overall outcome together with the number of invocations of the
transport call that were made. -/
def makeRequestLoop (outcomes : ℕ → AttemptOutcome) (retries : ℕ) :
    ℕ → ℕ → Option ApiFailure → Except ApiFailure Unit × ℕ
  | 0, attempt, lastError => (.error (lastError.getD .generic), attempt)
  | fuel + 1, attempt, _lastError =>
      match loopIter retries attempt (outcomes attempt) with
      | .done r => (r, attempt + 1)
      | .retry e => makeRequestLoop outcomes retries fuel (attempt + 1) (some e)

/-- The per-call options of `makeRequest` (`RequestOptions`), with the
destructured defaults `retries = 3`, `retryDelay = 1000`, `timeout = 30000`.
`retryDelay` and `timeout` do not influence the control flow of the pure
model (real waiting is not modelled); they are carried for fidelity. -/
structure RequestOptions where
  retries : ℕ
  retryDelay : ℚ
  timeout : ℚ
deriving DecidableEq

/-- The defaults `{ retries = 3, retryDelay = 1000, timeout = 30000 }` used
when a `makeRequest` caller supplies no options. -/
def defaultRequestOptions : RequestOptions := ⟨3, 1000, 30000⟩

/-- Model of `BitbucketAPI.makeRequest`, as a function of the transport behaviour and
the request options: the retry loop started at attempt 0 with no `lastError`
and `retries + 1` available iterations. -/
def makeRequest (outcomes : ℕ → AttemptOutcome) (opts : RequestOptions) :
    Except ApiFailure Unit × ℕ :=
  makeRequestLoop outcomes opts.retries (opts.retries + 1) 0 none

/-! ## Rate limiting (`rate-limiting.ts`)

`RateLimitConfig` and the shared `RateLimitResult` shape, then the two
limiter algorithms.  `Date.now()` is passed in as `now : ℚ`; the source calls
`Date.now()` both for the admission decision and inside `getNextResetTime`,
and the model uses the same reading for both (the two calls are adjacent). -/

/-- Model of `RateLimitConfig`: capacity and window duration in milliseconds. -/
structure RateLimitConfig where
  maxRequests : ℚ
  windowMs : ℚ
deriving DecidableEq

/-- Model of `RateLimitResult` as returned by `checkLimit`: `retryAfter` is present
exactly on denial. -/
structure RateLimitResult where
  allowed : Bool
  remaining : ℚ
  resetTime : ℚ
  retryAfter : Option ℚ
deriving DecidableEq

/-- Model of the `TokenBucketRateLimiter` mutable state: current (fractional) token
count and the timestamp of the last refill. -/
structure TokenBucketState where
  tokens : ℚ
  lastRefill : ℚ
deriving DecidableEq

namespace TokenBucket

/-- The rate `this.refillRate = this.maxTokens / config.windowMs` (tokens per ms). -/
def refillRate (cfg : RateLimitConfig) : ℚ :=
  cfg.maxRequests / cfg.windowMs

/-- The state set up by the constructor: a full bucket, last refilled now. -/
def init (cfg : RateLimitConfig) (now : ℚ) : TokenBucketState :=
  ⟨cfg.maxRequests, now⟩

/-- Model of `refillTokens`: add `timePassed * refillRate` tokens, clamped to
`maxTokens`, and move `lastRefill` to `now`. -/
def refillTokens (cfg : RateLimitConfig) (now : ℚ) (s : TokenBucketState) :
    TokenBucketState :=
  ⟨min cfg.maxRequests (s.tokens + (now - s.lastRefill) * refillRate cfg), now⟩

/-- Model of `getNextResetTime`: now plus the time until the bucket is full again. -/
def nextResetTime (cfg : RateLimitConfig) (now : ℚ) (s : TokenBucketState) : ℚ :=
  now + (cfg.maxRequests - s.tokens) / refillRate cfg

/-- Model of `TokenBucketRateLimiter.checkLimit`: refill, then consume one token if at
least one is available, else deny with `retryAfter = Math.ceil(1 / refillRate)`.
`remaining` is `Math.floor`ed. -/
def checkLimit (cfg : RateLimitConfig) (now : ℚ) (s : TokenBucketState) :
    RateLimitResult × TokenBucketState :=
  let s1 := refillTokens cfg now s
  if 1 ≤ s1.tokens then
    let s2 : TokenBucketState := ⟨s1.tokens - 1, s1.lastRefill⟩
    (⟨true, (⌊s2.tokens⌋ : ℤ), nextResetTime cfg now s2, none⟩, s2)
  else
    (⟨false, 0, nextResetTime cfg now s1, some (⌈1 / refillRate cfg⌉ : ℤ)⟩, s1)

end TokenBucket

namespace SlidingWindow

/-- Model of `Math.min(...xs)` over a list of timestamps.  The empty case (JavaScript
yields `Infinity`) is only reached from the denial branch when
`maxRequests ≤ 0`, a configuration outside every scenario considered; the
model returns `0` there. -/
def jsMin : List ℚ → ℚ
  | [] => 0
  | [t] => t
  | t :: ts => min t (jsMin ts)

/-- Model of `getNextResetTime` of the sliding-window limiter. -/
def nextResetTime (cfg : RateLimitConfig) (now : ℚ) (reqs : List ℚ) : ℚ :=
  if reqs = [] then now + cfg.windowMs else jsMin reqs + cfg.windowMs

/-- Model of `SlidingWindowRateLimiter.checkLimit`: drop the timestamps with
`timestamp ≤ now − windowMs` (the filter keeps `timestamp > windowStart`),
then admit — recording `now` — iff the remaining count is below
`maxRequests`; deny with `retryAfter = max(0, oldest + windowMs − now)`. -/
def checkLimit (cfg : RateLimitConfig) (now : ℚ) (reqs : List ℚ) :
    RateLimitResult × List ℚ :=
  let windowStart := now - cfg.windowMs
  let reqs1 := reqs.filter (fun t => windowStart < t)
  if (reqs1.length : ℚ) < cfg.maxRequests then
    let reqs2 := reqs1 ++ [now]
    (⟨true, cfg.maxRequests - reqs2.length, nextResetTime cfg now reqs2, none⟩, reqs2)
  else
    (⟨false, 0, nextResetTime cfg now reqs1,
      some (max 0 (jsMin reqs1 + cfg.windowMs - now))⟩, reqs1)

end SlidingWindow

/-- A limiter instance as held by `MultiTierRateLimiter`: one of the two
algorithms, with its configuration and current state. -/
inductive Limiter : Type
  | tokenBucket (cfg : RateLimitConfig) (s : TokenBucketState)
  | slidingWindow (cfg : RateLimitConfig) (reqs : List ℚ)
deriving DecidableEq

/-- Step a limiter: dispatch `checkLimit` to its algorithm. -/
def Limiter.checkLimit (now : ℚ) : Limiter → RateLimitResult × Limiter
  | .tokenBucket cfg s =>
      let p := TokenBucket.checkLimit cfg now s
      (p.1, .tokenBucket cfg p.2)
  | .slidingWindow cfg reqs =>
      let p := SlidingWindow.checkLimit cfg now reqs
      (p.1, .slidingWindow cfg p.2)

/-- The configuration entry of a tier: a `RateLimitConfig` together with an
optional algorithm tag (token-bucket or sliding-window). -/
inductive LimiterType : Type
  | tokenBucket
  | slidingWindow
deriving DecidableEq

/-- One entry of the `configs` record passed to `MultiTierRateLimiter`. -/
structure TierConfig where
  config : RateLimitConfig
  type : Option LimiterType
deriving DecidableEq

/-- Model of the `MultiTierRateLimiter` state: the `limiters` map, tier name → limiter,
modelled as an insertion-ordered association list. -/
structure MultiTier where
  limiters : List (String × Limiter)
deriving DecidableEq

/-- The `MultiTierRateLimiter` constructor: for each configured tier build a
sliding-window limiter when `config.type` says so, else — the default of
`config.type || ...` — a token-bucket limiter starting full at construction
time. -/
def MultiTier.mk0 (configs : List (String × TierConfig)) (now : ℚ) : MultiTier :=
  ⟨configs.map (fun p =>
    match p.2.type.getD .tokenBucket with
    | .slidingWindow => (p.1, .slidingWindow p.2.config [])
    | .tokenBucket => (p.1, .tokenBucket p.2.config (TokenBucket.init p.2.config now)))⟩

/-- Model of `MultiTierRateLimiter.checkLimit(tier)`: throw
`Unknown rate limit tier: ...` when the tier has no limiter, else delegate.
The thrown error is modelled as the `Except.error` case carrying the message. -/
def MultiTier.checkLimit (m : MultiTier) (tier : String) (now : ℚ) :
    Except String (RateLimitResult × MultiTier) :=
  match m.limiters.lookup tier with
  | none => .error ("Unknown rate limit tier: " ++ tier)
  | some l =>
      let p := l.checkLimit now
      .ok (p.1, ⟨m.limiters.map (fun q => if q.1 = tier then (tier, p.2) else q)⟩)

/-! ## LRU + TTL cache (`LRUCache`)

`Date.now()` produces integer milliseconds, so cache time is modelled by `ℤ`;
values are a type parameter `α`.  the insertion-ordered JavaScript
`Map<string, _>` is an association list: `Map.set` overwrites in place when
the key is present and appends otherwise, `Map.delete` removes preserving
order, `Map.get` looks the key up. -/

/-- Model of `Map.set`: overwrite in place if present, else append. -/
def mapSet {β : Type} (m : List (String × β)) (k : String) (v : β) :
    List (String × β) :=
  if (m.lookup k).isSome then
    m.map (fun p => if p.1 = k then (k, v) else p)
  else
    m ++ [(k, v)]

/-- Model of `Map.delete`: remove the key, preserving the order of the rest. -/
def mapDelete {β : Type} (m : List (String × β)) (k : String) :
    List (String × β) :=
  m.filter (fun p => p.1 ≠ k)

/-- Model of `CacheEntry<T>`: stored value, creation timestamp, time-to-live, key. -/
structure CacheEntry (α : Type) where
  data : α
  timestamp : ℤ
  ttl : ℤ
  key : String
deriving DecidableEq

/-- Model of `CacheOptions`. -/
structure CacheOptions where
  maxSize : ℕ
  defaultTtl : ℤ
  cleanupInterval : ℤ
deriving DecidableEq

/-- Model of `CacheStats`. -/
structure CacheStats where
  hits : ℕ
  misses : ℕ
  totalRequests : ℕ
  hitRate : ℚ
  cacheSize : ℕ
  maxSize : ℕ
deriving DecidableEq

/-- The state of an `LRUCache<T>` object: the entry map, the access-order
map (key → access counter), the monotone access counter, the statistics and
the configuration. -/
structure LRUCache (α : Type) where
  cache : List (String × CacheEntry α)
  accessOrder : List (String × ℕ)
  accessCounter : ℕ
  stats : CacheStats
  options : CacheOptions
deriving DecidableEq

namespace LRUCache

/-- The state set up by the `LRUCache` constructor (the cleanup timer itself
is not part of the state model). -/
def init (α : Type) (opts : CacheOptions) : LRUCache α :=
  ⟨[], [], 0, ⟨0, 0, 0, 0, 0, opts.maxSize⟩, opts⟩

/-- Model of `updateHitRate`: `hitRate = totalRequests > 0 ? hits / totalRequests : 0`. -/
def updateHitRate (st : CacheStats) : CacheStats :=
  { st with hitRate := if 0 < st.totalRequests then (st.hits : ℚ) / st.totalRequests else 0 }

/-- Model of `get`: count the request; a missing key is a miss; an entry with
`now > timestamp + ttl` is deleted (from both maps) and is a miss; otherwise
bump the access-order stamp of the entry and count a hit.  `updateHitRate` runs on
every path. -/
def get {α : Type} (c : LRUCache α) (key : String) (now : ℤ) :
    Option α × LRUCache α :=
  let st0 := { c.stats with totalRequests := c.stats.totalRequests + 1 }
  match c.cache.lookup key with
  | none =>
      (none, { c with stats := updateHitRate { st0 with misses := st0.misses + 1 } })
  | some entry =>
      if now > entry.timestamp + entry.ttl then
        let cache1 := mapDelete c.cache key
        let st1 := updateHitRate { st0 with misses := st0.misses + 1 }
        (none, { c with cache := cache1,
                        accessOrder := mapDelete c.accessOrder key,
                        stats := { st1 with cacheSize := cache1.length } })
      else
        (some entry.data,
         { c with accessOrder := mapSet c.accessOrder key (c.accessCounter + 1),
                  accessCounter := c.accessCounter + 1,
                  stats := updateHitRate { st0 with hits := st0.hits + 1 } })

/-- The constant `Number.MAX_SAFE_INTEGER`, the initial value of `lruAccess`. -/
def maxSafeInteger : ℕ := 9007199254740991

/-- The scan of `evictLRU` over `accessOrder.entries()`: keep the key of the
strictly smallest access stamp seen so far. -/
def evictLoop : List (String × ℕ) → Option String → ℕ → Option String
  | [], best, _ => best
  | (k, a) :: rest, best, bestAccess =>
      if a < bestAccess then evictLoop rest (some k) a
      else evictLoop rest best bestAccess

/-- Model of `evictLRU`: find the key with the smallest access stamp and delete it —
guarded by `if (lruKey)`, which in JavaScript is falsy not only for `null`
but also for the empty-string key, in which case nothing is deleted. -/
def evictLRU {α : Type} (c : LRUCache α) : LRUCache α :=
  if c.accessOrder.length = 0 then c
  else
    match evictLoop c.accessOrder none maxSafeInteger with
    | some lruKey =>
        if lruKey = "" then c
        else { c with cache := mapDelete c.cache lruKey,
                      accessOrder := mapDelete c.accessOrder lruKey }
    | none => c

/-- The expression `ttl || this.options.defaultTtl`: an absent argument and the falsy
number `0` both select the default. -/
def jsOrTtl (ttl : Option ℤ) (dflt : ℤ) : ℤ :=
  match ttl with
  | none => dflt
  | some t => if t = 0 then dflt else t

/-- Model of `set`: build the entry (creation time `now`, ttl `ttl || defaultTtl`),
evict the LRU entry when the map is at capacity and the key is new, then
write the entry, stamp the access order with the bumped counter, and refresh
`stats.cacheSize`. -/
def set {α : Type} (c : LRUCache α) (key : String) (data : α)
    (ttl : Option ℤ) (now : ℤ) : LRUCache α :=
  let entry : CacheEntry α := ⟨data, now, jsOrTtl ttl c.options.defaultTtl, key⟩
  let c1 := if c.options.maxSize ≤ c.cache.length ∧ (c.cache.lookup key).isNone
    then c.evictLRU else c
  let cache1 := mapSet c1.cache key entry
  { c1 with cache := cache1,
            accessOrder := mapSet c1.accessOrder key (c1.accessCounter + 1),
            accessCounter := c1.accessCounter + 1,
            stats := { c1.stats with cacheSize := cache1.length } }

/-- Model of `has`: like the lookup of `get` but without touching the access order or the
statistics; an expired entry is still deleted (and `cacheSize` refreshed). -/
def has {α : Type} (c : LRUCache α) (key : String) (now : ℤ) :
    Bool × LRUCache α :=
  match c.cache.lookup key with
  | none => (false, c)
  | some entry =>
      if now > entry.timestamp + entry.ttl then
        let cache1 := mapDelete c.cache key
        (false, { c with cache := cache1,
                         accessOrder := mapDelete c.accessOrder key,
                         stats := { c.stats with cacheSize := cache1.length } })
      else (true, c)

/-- Model of `delete`: remove the key from both maps when present and refresh
`stats.cacheSize`; report whether anything was deleted. -/
def delete {α : Type} (c : LRUCache α) (key : String) : Bool × LRUCache α :=
  if (c.cache.lookup key).isSome then
    let cache1 := mapDelete c.cache key
    (true, { c with cache := cache1,
                    accessOrder := mapDelete c.accessOrder key,
                    stats := { c.stats with cacheSize := cache1.length } })
  else (false, c)

end LRUCache

/-! ## Theorems about the request executor -/

/-- Auxiliary: when every attempt times out, the retry loop, started anywhere
with at least one iteration left and fuel accounting for the remaining
attempts, performs all remaining attempts and raises the timeout-classified
error; the attempt counter ends at `retries + 1` transport invocations. -/
lemma makeRequestLoop_all_timeout (outcomes : ℕ → AttemptOutcome) (retries : ℕ)
    (hto : ∀ k, outcomes k = AttemptOutcome.timeout) :
    ∀ (fuel attempt : ℕ) (last : Option ApiFailure),
      attempt + fuel = retries + 1 → 1 ≤ fuel →
      makeRequestLoop outcomes retries fuel attempt last
        = (Except.error ApiFailure.requestTimeout, retries + 1) := by
  intro fuel
  induction fuel with
  | zero => intro attempt last _ hfuel; omega
  | succ f ih =>
      intro attempt last hacc _
      have ho := hto attempt
      by_cases h : attempt < retries
      · have hf : 1 ≤ f := by omega
        simp only [makeRequestLoop, ho, loopIter, tryBlock, catchBlock, if_pos h]
        exact ih (attempt + 1) (some ApiFailure.requestTimeout) (by omega) hf
      · have heq : attempt = retries := by omega
        subst heq
        simp [makeRequestLoop, ho, loopIter, tryBlock, catchBlock, h]

/-- C1: the specification says a transport failure with HTTP status in
[400, 500) is raised immediately with no further attempts — a 404 on the
first attempt should yield exactly 1 invocation.  The code disagrees with
its own comment (`Do not retry on client errors (4xx)`): the `throw` for the
4xx case sits inside the `try` block, so the `catch` block catches it and
retries it like any other failure.  With the default `retries = 3`, a
transport call failing with 404 on every attempt is invoked 4 times, not 1,
before the 404 error is raised. -/
theorem C1_executor_client_error_is_retried :
    makeRequest (fun _ => AttemptOutcome.httpError 404) defaultRequestOptions
      = (Except.error (ApiFailure.http 404), 4) ∧ (4 : ℕ) ≠ 1 :=
  ⟨rfl, by decide⟩

/-- C2: retryable failures (HTTP ≥ 500, network, per-attempt timeout) are
re-attempted until success or until `retries + 1` total attempts, after which
the last observed error is raised: with `retries = 3`, failing with 503 three
times then succeeding returns the success after exactly 4 invocations; timing
out on every attempt raises the timeout-classified failure after exactly
`retries + 1` invocations, never fewer; the defaults are `retries = 3`,
`retryDelay = 1000` ms, `timeout = 30000` ms. -/
theorem C2_executor_retryable_retry_loop (retries : ℕ)
    (outcomes : ℕ → AttemptOutcome)
    (hto : ∀ k, outcomes k = AttemptOutcome.timeout) :
    makeRequest (fun n => if n < 3 then AttemptOutcome.httpError 503 else AttemptOutcome.ok)
        defaultRequestOptions = (Except.ok (), 4)
      ∧ makeRequest outcomes ⟨retries, 1000, 30000⟩
          = (Except.error ApiFailure.requestTimeout, retries + 1)
      ∧ defaultRequestOptions = ⟨3, 1000, 30000⟩ :=
  ⟨rfl,
   makeRequestLoop_all_timeout outcomes retries hto (retries + 1) 0 none
     (by omega) (by omega),
   rfl⟩

/-- Witness for C2 at `retries = 2` and an always-timing-out transport. -/
theorem C2_witness :
    makeRequest (fun n => if n < 3 then AttemptOutcome.httpError 503 else AttemptOutcome.ok)
        defaultRequestOptions = (Except.ok (), 4)
      ∧ makeRequest (fun _ => AttemptOutcome.timeout) ⟨2, 1000, 30000⟩
          = (Except.error ApiFailure.requestTimeout, 2 + 1)
      ∧ defaultRequestOptions = ⟨3, 1000, 30000⟩ :=
  C2_executor_retryable_retry_loop 2 (fun _ => AttemptOutcome.timeout) (fun _ => rfl)

/-! ## Theorems about the token-bucket rate limiter -/

namespace TokenBucket

/-- Iterating `checkLimit` (keeping only the state) `n` times at one instant. -/
def checksAt (cfg : RateLimitConfig) (now : ℚ) : ℕ → TokenBucketState → TokenBucketState
  | 0, s => s
  | n + 1, s => (checkLimit cfg now (checksAt cfg now n s)).2

/-- The function `checkLimit` written through the refilled state. -/
lemma checkLimit_via_refill (cfg : RateLimitConfig) (now : ℚ) (s : TokenBucketState) :
    checkLimit cfg now s
      = if 1 ≤ (refillTokens cfg now s).tokens
        then (⟨true, ((⌊(refillTokens cfg now s).tokens - 1⌋ : ℤ) : ℚ),
                nextResetTime cfg now ⟨(refillTokens cfg now s).tokens - 1, now⟩, none⟩,
              ⟨(refillTokens cfg now s).tokens - 1, now⟩)
        else (⟨false, 0, nextResetTime cfg now (refillTokens cfg now s),
                some ((⌈1 / refillRate cfg⌉ : ℤ) : ℚ)⟩,
              refillTokens cfg now s) := rfl

/-- Refilling at the very instant of the last refill changes nothing (when
the count is within capacity). -/
lemma refill_fixed (cfg : RateLimitConfig) (t : ℚ) (s : TokenBucketState)
    (h : s.lastRefill = t) (hle : s.tokens ≤ cfg.maxRequests) :
    refillTokens cfg t s = ⟨s.tokens, t⟩ := by
  unfold refillTokens
  rw [h, sub_self, zero_mul, add_zero, min_eq_right hle]

/-- From a full bucket, `k ≤ cap` checks in zero elapsed time leave exactly
`cap − k` tokens. -/
lemma checksAt_full (cap window : ℕ) (t0 : ℚ) :
    ∀ k, k ≤ cap →
      checksAt ⟨(cap : ℚ), (window : ℚ)⟩ t0 k
          (init ⟨(cap : ℚ), (window : ℚ)⟩ t0)
        = ⟨(cap : ℚ) - k, t0⟩ := by
  intro k
  induction k with
  | zero => intro _; simp [checksAt, init]
  | succ n ih =>
      intro hk
      have hs := ih (Nat.le_of_succ_le hk)
      have hsub : ((n : ℚ)) ≤ (cap : ℚ) := by exact_mod_cast Nat.le_of_succ_le hk
      have hone : (1 : ℚ) + (n : ℚ) ≤ (cap : ℚ) := by
        have : ((n + 1 : ℕ) : ℚ) ≤ (cap : ℚ) := by exact_mod_cast hk
        push_cast at this
        linarith
      have hle : (cap : ℚ) - n ≤ (cap : ℚ) := by linarith
      have h1 : (1 : ℚ) ≤ (cap : ℚ) - n := by linarith
      simp only [checksAt, hs, checkLimit_via_refill,
        refill_fixed ⟨(cap : ℚ), (window : ℚ)⟩ t0 ⟨(cap : ℚ) - n, t0⟩ rfl hle]
      rw [if_pos h1]
      have : (cap : ℚ) - n - 1 = (cap : ℚ) - (n + 1 : ℕ) := by push_cast; ring
      simp [this]

end TokenBucket

/-- C3: for a token-bucket tier (capacity `cap`, window `window` ms),
`checkLimit` refills `elapsed × refillRate` tokens clamped to capacity, then
allows and subtracts 1 exactly when at least one token is available, and on
denial reports `retryAfter = ceil(1 / refillRate)`; from a full bucket,
`cap` checks in zero elapsed time are all allowed, the `cap + 1`-th is
denied, waiting `window / cap` ms restores exactly one more allowed check,
and the token count stays within `[0, cap]` under nondecreasing clocks. -/
theorem C3_token_bucket_checkLimit (cap window : ℕ) (t0 : ℚ)
    (cfg : RateLimitConfig) (s0 : TokenBucketState)
    (hcap : 1 ≤ cap) (hw : 1 ≤ window)
    (hcfg : cfg = ⟨(cap : ℚ), (window : ℚ)⟩)
    (hs0 : s0 = TokenBucket.init cfg t0) :
    (∀ (s : TokenBucketState) (now : ℚ),
        ((TokenBucket.checkLimit cfg now s).1.allowed = true
            ↔ 1 ≤ (TokenBucket.refillTokens cfg now s).tokens)
          ∧ ((TokenBucket.checkLimit cfg now s).1.allowed = true →
              (TokenBucket.checkLimit cfg now s).2.tokens
                = (TokenBucket.refillTokens cfg now s).tokens - 1)
          ∧ ((TokenBucket.checkLimit cfg now s).1.allowed = false →
              (TokenBucket.checkLimit cfg now s).1.retryAfter
                = some ((⌈1 / TokenBucket.refillRate cfg⌉ : ℤ) : ℚ)))
      ∧ (∀ k, k < cap →
          (TokenBucket.checkLimit cfg t0 (TokenBucket.checksAt cfg t0 k s0)).1.allowed = true)
      ∧ (TokenBucket.checkLimit cfg t0 (TokenBucket.checksAt cfg t0 cap s0)).1.allowed = false
      ∧ (TokenBucket.checkLimit cfg t0 (TokenBucket.checksAt cfg t0 cap s0)).1.retryAfter
          = some ((⌈1 / TokenBucket.refillRate cfg⌉ : ℤ) : ℚ)
      ∧ (TokenBucket.checkLimit cfg (t0 + (window : ℚ) / (cap : ℚ))
            (TokenBucket.checkLimit cfg t0 (TokenBucket.checksAt cfg t0 cap s0)).2).1.allowed = true
      ∧ (TokenBucket.checkLimit cfg (t0 + (window : ℚ) / (cap : ℚ))
            (TokenBucket.checkLimit cfg (t0 + (window : ℚ) / (cap : ℚ))
              (TokenBucket.checkLimit cfg t0 (TokenBucket.checksAt cfg t0 cap s0)).2).2).1.allowed
          = false
      ∧ (∀ (s : TokenBucketState) (now : ℚ),
          0 ≤ s.tokens → s.tokens ≤ cfg.maxRequests → s.lastRefill ≤ now →
            0 ≤ (TokenBucket.checkLimit cfg now s).2.tokens
              ∧ (TokenBucket.checkLimit cfg now s).2.tokens ≤ cfg.maxRequests) := by
  subst hcfg
  subst hs0
  have hcapQ : (1 : ℚ) ≤ (cap : ℚ) := by exact_mod_cast hcap
  have hwQ : (0 : ℚ) < (window : ℚ) := by exact_mod_cast Nat.lt_of_lt_of_le Nat.zero_lt_one hw
  have hcap0 : (0 : ℚ) < (cap : ℚ) := by linarith
  have hwne : (window : ℚ) ≠ 0 := ne_of_gt hwQ
  have hcapne : (cap : ℚ) ≠ 0 := ne_of_gt hcap0
  have hsK := TokenBucket.checksAt_full cap window t0 cap le_rfl
  have hzle : (cap : ℚ) - (cap : ℚ) ≤ (cap : ℚ) := by linarith
  have hznot : ¬ (1 : ℚ) ≤ (cap : ℚ) - (cap : ℚ) := by
    rw [sub_self]; norm_num
  have hdenied :
      (TokenBucket.checkLimit ⟨(cap : ℚ), (window : ℚ)⟩ t0 ⟨(cap : ℚ) - cap, t0⟩).2
        = ⟨(cap : ℚ) - cap, t0⟩ := by
    rw [TokenBucket.checkLimit_via_refill,
      TokenBucket.refill_fixed ⟨(cap : ℚ), (window : ℚ)⟩ t0 ⟨(cap : ℚ) - cap, t0⟩ rfl hzle]
    norm_num
  have hrr :
      TokenBucket.refillTokens ⟨(cap : ℚ), (window : ℚ)⟩ (t0 + (window : ℚ) / cap)
          ⟨(cap : ℚ) - cap, t0⟩
        = ⟨1, t0 + (window : ℚ) / cap⟩ := by
    unfold TokenBucket.refillTokens TokenBucket.refillRate
    have harith :
        ((cap : ℚ) - cap) + (t0 + (window : ℚ) / cap - t0) * ((cap : ℚ) / window) = 1 := by
      rw [sub_self, zero_add, add_sub_cancel_left, div_mul_div_comm,
        mul_comm (cap : ℚ) (window : ℚ), div_self (mul_ne_zero hwne hcapne)]
    simp only [harith]
    rw [min_eq_right hcapQ]
  have h2s :
      (TokenBucket.checkLimit ⟨(cap : ℚ), (window : ℚ)⟩ (t0 + (window : ℚ) / cap)
          ⟨(cap : ℚ) - cap, t0⟩).2 = ⟨0, t0 + (window : ℚ) / cap⟩ := by
    rw [TokenBucket.checkLimit_via_refill, hrr]
    norm_num
  have h2a :
      (TokenBucket.checkLimit ⟨(cap : ℚ), (window : ℚ)⟩ (t0 + (window : ℚ) / cap)
          ⟨(cap : ℚ) - cap, t0⟩).1.allowed = true := by
    rw [TokenBucket.checkLimit_via_refill, hrr]
    norm_num
  have h3 :
      (TokenBucket.checkLimit ⟨(cap : ℚ), (window : ℚ)⟩ (t0 + (window : ℚ) / cap)
          ⟨(0 : ℚ), t0 + (window : ℚ) / cap⟩).1.allowed = false := by
    rw [TokenBucket.checkLimit_via_refill,
      TokenBucket.refill_fixed ⟨(cap : ℚ), (window : ℚ)⟩ (t0 + (window : ℚ) / cap)
        ⟨0, t0 + (window : ℚ) / cap⟩ rfl (by linarith)]
    norm_num
  refine ⟨?_, ?_, ?_, ?_, ?_, ?_, ?_⟩
  · intro s now
    rw [TokenBucket.checkLimit_via_refill]
    by_cases h : 1 ≤ (TokenBucket.refillTokens ⟨(cap : ℚ), (window : ℚ)⟩ now s).tokens
    · simp [h]
    · simp [h]
  · intro k hk
    rw [TokenBucket.checksAt_full cap window t0 k (le_of_lt hk)]
    have h1 : (1 : ℚ) ≤ (cap : ℚ) - k := by
      have : ((k + 1 : ℕ) : ℚ) ≤ (cap : ℚ) := by exact_mod_cast hk
      push_cast at this
      linarith
    have hle : (cap : ℚ) - k ≤ (cap : ℚ) := by
      have : (0 : ℚ) ≤ (k : ℚ) := Nat.cast_nonneg k
      linarith
    rw [TokenBucket.checkLimit_via_refill,
      TokenBucket.refill_fixed ⟨(cap : ℚ), (window : ℚ)⟩ t0 ⟨(cap : ℚ) - k, t0⟩ rfl hle]
    simp [h1]
  · rw [hsK, TokenBucket.checkLimit_via_refill,
      TokenBucket.refill_fixed ⟨(cap : ℚ), (window : ℚ)⟩ t0 ⟨(cap : ℚ) - cap, t0⟩ rfl hzle]
    norm_num
  · rw [hsK, TokenBucket.checkLimit_via_refill,
      TokenBucket.refill_fixed ⟨(cap : ℚ), (window : ℚ)⟩ t0 ⟨(cap : ℚ) - cap, t0⟩ rfl hzle]
    norm_num
  · rw [hsK, hdenied]
    exact h2a
  · rw [hsK, hdenied, h2s]
    exact h3
  · intro s now h0 hle hmono
    rw [TokenBucket.checkLimit_via_refill]
    have hrate : (0 : ℚ) ≤ TokenBucket.refillRate ⟨(cap : ℚ), (window : ℚ)⟩ := by
      unfold TokenBucket.refillRate
      exact div_nonneg (le_of_lt hcap0) (le_of_lt hwQ)
    have hx0 : 0 ≤ (TokenBucket.refillTokens ⟨(cap : ℚ), (window : ℚ)⟩ now s).tokens := by
      unfold TokenBucket.refillTokens
      refine le_min (le_of_lt hcap0) ?_
      have he : (0 : ℚ) ≤ now - s.lastRefill := sub_nonneg.mpr hmono
      have := mul_nonneg he hrate
      linarith
    have hxle : (TokenBucket.refillTokens ⟨(cap : ℚ), (window : ℚ)⟩ now s).tokens ≤ (cap : ℚ) := by
      unfold TokenBucket.refillTokens
      exact min_le_left _ _
    by_cases h : 1 ≤ (TokenBucket.refillTokens ⟨(cap : ℚ), (window : ℚ)⟩ now s).tokens
    · simp only [if_pos h]
      constructor
      · show (0 : ℚ) ≤ _ - 1
        linarith
      · show (TokenBucket.refillTokens ⟨(cap : ℚ), (window : ℚ)⟩ now s).tokens - 1 ≤ (cap : ℚ)
        linarith
    · simp only [if_neg h]
      exact ⟨hx0, hxle⟩

/-- Witness for C3 at capacity 2, window 1000 ms, starting at time 0: the
third immediate check is denied. -/
theorem C3_witness :
    (TokenBucket.checkLimit ⟨((2 : ℕ) : ℚ), ((1000 : ℕ) : ℚ)⟩ 0
        (TokenBucket.checksAt ⟨((2 : ℕ) : ℚ), ((1000 : ℕ) : ℚ)⟩ 0 2
          (TokenBucket.init ⟨((2 : ℕ) : ℚ), ((1000 : ℕ) : ℚ)⟩ 0))).1.allowed = false :=
  (C3_token_bucket_checkLimit 2 1000 0 ⟨((2 : ℕ) : ℚ), ((1000 : ℕ) : ℚ)⟩
    (TokenBucket.init ⟨((2 : ℕ) : ℚ), ((1000 : ℕ) : ℚ)⟩ 0)
    (by decide) (by decide) rfl rfl).2.2.1

/-! ## Theorems about the sliding-window rate limiter -/

namespace SlidingWindow

/-- Run a sequence of checks, keeping only the resulting timestamp list. -/
def run (cfg : RateLimitConfig) : List ℚ → List ℚ → List ℚ
  | [], reqs => reqs
  | t :: ts, reqs => run cfg ts (checkLimit cfg t reqs).2

lemma run_append (cfg : RateLimitConfig) (l1 l2 : List ℚ) (s : List ℚ) :
    run cfg (l1 ++ l2) s = run cfg l2 (run cfg l1 s) := by
  induction l1 generalizing s with
  | nil => rfl
  | cons t ts ih => simp [run, ih]

lemma jsMin_mem : ∀ (l : List ℚ), l ≠ [] → jsMin l ∈ l := by
  intro l
  induction l with
  | nil => intro h; exact absurd rfl h
  | cons t ts ih =>
      intro _
      cases ts with
      | nil => simp [jsMin]
      | cons u us =>
          show min t (jsMin (u :: us)) ∈ t :: u :: us
          rcases le_total t (jsMin (u :: us)) with h | h
          · rw [min_eq_left h]
            exact List.mem_cons_self t _
          · rw [min_eq_right h]
            exact List.mem_cons_of_mem t (ih (by simp))

lemma jsMin_le : ∀ (l : List ℚ) (x : ℚ), x ∈ l → jsMin l ≤ x := by
  intro l
  induction l with
  | nil => intro x hx; exact absurd hx (List.not_mem_nil x)
  | cons t ts ih =>
      intro x hx
      cases ts with
      | nil =>
          rcases List.mem_singleton.mp hx with rfl
          exact le_of_eq rfl
      | cons u us =>
          show min t (jsMin (u :: us)) ≤ x
          rcases List.mem_cons.mp hx with rfl | hx2
          · exact min_le_left _ _
          · exact le_trans (min_le_right _ _) (ih x hx2)

lemma jsMin_eq (l : List ℚ) (a : ℚ) (hne : l ≠ []) (ha : a ∈ l)
    (hall : ∀ x ∈ l, a ≤ x) : jsMin l = a :=
  le_antisymm (jsMin_le l a ha) (hall _ (jsMin_mem l hne))

/-- Evaluation of `checkLimit` when nothing is old enough to be dropped and room remains:
admit, record `now`. -/
lemma checkLimit_allowed_of (cfg : RateLimitConfig) (now : ℚ) (reqs : List ℚ)
    (hkeep : ∀ t ∈ reqs, now - cfg.windowMs < t)
    (hlen : (reqs.length : ℚ) < cfg.maxRequests) :
    checkLimit cfg now reqs
      = (⟨true, cfg.maxRequests - ((reqs.length + 1 : ℕ) : ℚ),
            nextResetTime cfg now (reqs ++ [now]), none⟩, reqs ++ [now]) := by
  have hfilter : reqs.filter (fun t => now - cfg.windowMs < t) = reqs :=
    List.filter_eq_self.mpr (fun t ht => by simpa using hkeep t ht)
  unfold checkLimit
  simp only [hfilter, if_pos hlen]
  norm_num

/-- Evaluation of `checkLimit` when nothing is dropped and the window is full: deny with
`retryAfter = max 0 (oldest + window − now)`, leaving the list unchanged. -/
lemma checkLimit_denied_of (cfg : RateLimitConfig) (now : ℚ) (reqs : List ℚ)
    (hkeep : ∀ t ∈ reqs, now - cfg.windowMs < t)
    (hlen : ¬ ((reqs.length : ℚ) < cfg.maxRequests)) :
    checkLimit cfg now reqs
      = (⟨false, 0, nextResetTime cfg now reqs,
            some (max 0 (jsMin reqs + cfg.windowMs - now))⟩, reqs) := by
  have hfilter : reqs.filter (fun t => now - cfg.windowMs < t) = reqs :=
    List.filter_eq_self.mpr (fun t ht => by simpa using hkeep t ht)
  unfold checkLimit
  simp only [hfilter, if_neg hlen]

/-- The function `checkLimit` expressed through a precomputed filter result. -/
lemma checkLimit_eval (cfg : RateLimitConfig) (now : ℚ) (reqs r1 : List ℚ)
    (h : reqs.filter (fun t => now - cfg.windowMs < t) = r1) :
    checkLimit cfg now reqs
      = if (r1.length : ℚ) < cfg.maxRequests
        then (⟨true, cfg.maxRequests - ((r1.length + 1 : ℕ) : ℚ),
                nextResetTime cfg now (r1 ++ [now]), none⟩, r1 ++ [now])
        else (⟨false, 0, nextResetTime cfg now r1,
                some (max 0 (jsMin r1 + cfg.windowMs - now))⟩, r1) := by
  simp only [checkLimit]
  rw [h]
  split_ifs with hc
  · norm_num
  · rfl

/-- In the staggered scenario (check `i` issued at `t0 + i·δ`, all gaps
within the window), the first `k ≤ cap` checks record exactly exactly those
timestamps. -/
lemma run_scenario (cap window δ : ℕ) (t0 : ℚ) (hδw : (cap - 1) * δ < window) :
    ∀ k, k ≤ cap →
      run ⟨(cap : ℚ), (window : ℚ)⟩
          ((List.range k).map (fun i : ℕ => t0 + (i : ℚ) * (δ : ℚ))) []
        = (List.range k).map (fun i : ℕ => t0 + (i : ℚ) * (δ : ℚ)) := by
  intro k
  induction k with
  | zero => intro _; rfl
  | succ n ih =>
      intro hk
      rw [List.range_succ, List.map_append, run_append, ih (Nat.le_of_succ_le hk)]
      show run _ [t0 + (n : ℚ) * (δ : ℚ)] _ = _
      simp only [run]
      rw [checkLimit_allowed_of]
      · simp
      · intro t ht
        obtain ⟨i, hi, rfl⟩ := List.mem_map.mp ht
        have hi2 := List.mem_range.mp hi
        have h1 : (n - i) * δ < window :=
          lt_of_le_of_lt (Nat.mul_le_mul_right δ (by omega)) hδw
        have h2 : (((n - i) * δ : ℕ) : ℚ) < ((window : ℕ) : ℚ) := by exact_mod_cast h1
        push_cast [Nat.cast_sub (le_of_lt hi2)] at h2
        rw [sub_mul] at h2
        show t0 + (n : ℚ) * (δ : ℚ) - _ < _
        have hw : ((⟨(cap : ℚ), (window : ℚ)⟩ : RateLimitConfig)).windowMs = (window : ℚ) := rfl
        rw [hw]
        linarith
      · have hlen : ((List.range n).map (fun i : ℕ => t0 + (i : ℚ) * (δ : ℚ))).length = n := by
          simp
        rw [hlen]
        show (n : ℚ) < (cap : ℚ)
        exact_mod_cast hk

end SlidingWindow

/-- C4: for a sliding-window tier (capacity `cap`, window `window` ms),
`checkLimit` first drops the timestamps that have left the window, allows
(recording `now`) exactly when the remaining count is below capacity, and
otherwise denies with `retryAfter = max 0 (oldest + window − now)`; in the
staggered scenario (check `i` at `t0 + i·δ`), the first `cap` checks are all
allowed, checks issued before the oldest admission leaves the window are
denied (leaving the list unchanged), at `t0 + window` exactly one more check
is allowed and the next is denied again; after any decision every stored
timestamp is inside the window, and the stored count never exceeds `cap`. -/
theorem C4_sliding_window_checkLimit (cap window δ : ℕ) (t0 : ℚ)
    (cfg : RateLimitConfig)
    (hcap : 1 ≤ cap) (hw : 1 ≤ window) (hδ : 1 ≤ δ)
    (hδw : (cap - 1) * δ < window)
    (hcfg : cfg = ⟨(cap : ℚ), (window : ℚ)⟩) :
    (∀ k, k < cap →
        (SlidingWindow.checkLimit cfg (t0 + (k : ℚ) * (δ : ℚ))
          (SlidingWindow.run cfg
            ((List.range k).map (fun i : ℕ => t0 + (i : ℚ) * (δ : ℚ))) [])).1.allowed = true)
      ∧ (∀ u : ℚ, t0 + ((cap - 1 : ℕ) : ℚ) * (δ : ℚ) ≤ u → u < t0 + (window : ℚ) →
          (SlidingWindow.checkLimit cfg u
              (SlidingWindow.run cfg
                ((List.range cap).map (fun i : ℕ => t0 + (i : ℚ) * (δ : ℚ))) [])).1.allowed
              = false
            ∧ (SlidingWindow.checkLimit cfg u
                (SlidingWindow.run cfg
                  ((List.range cap).map (fun i : ℕ => t0 + (i : ℚ) * (δ : ℚ))) [])).1.retryAfter
              = some (max 0 (t0 + (window : ℚ) - u))
            ∧ (SlidingWindow.checkLimit cfg u
                (SlidingWindow.run cfg
                  ((List.range cap).map (fun i : ℕ => t0 + (i : ℚ) * (δ : ℚ))) [])).2
              = SlidingWindow.run cfg
                  ((List.range cap).map (fun i : ℕ => t0 + (i : ℚ) * (δ : ℚ))) [])
      ∧ (SlidingWindow.checkLimit cfg (t0 + (window : ℚ))
            (SlidingWindow.run cfg
              ((List.range cap).map (fun i : ℕ => t0 + (i : ℚ) * (δ : ℚ))) [])).1.allowed = true
      ∧ (SlidingWindow.checkLimit cfg (t0 + (window : ℚ))
            (SlidingWindow.checkLimit cfg (t0 + (window : ℚ))
              (SlidingWindow.run cfg
                ((List.range cap).map (fun i : ℕ => t0 + (i : ℚ) * (δ : ℚ))) [])).2).1.allowed
          = false
      ∧ (∀ (reqs : List ℚ) (now : ℚ),
          (∀ t ∈ (SlidingWindow.checkLimit cfg now reqs).2, now - cfg.windowMs < t)
            ∧ (reqs.length ≤ cap → (SlidingWindow.checkLimit cfg now reqs).2.length ≤ cap))
      ∧ (∀ (reqs : List ℚ) (now : ℚ),
          ((SlidingWindow.checkLimit cfg now reqs).1.allowed = true
              ↔ ((reqs.filter (fun t => now - cfg.windowMs < t)).length : ℚ) < cfg.maxRequests)
            ∧ ((SlidingWindow.checkLimit cfg now reqs).1.allowed = true →
                (SlidingWindow.checkLimit cfg now reqs).2
                  = reqs.filter (fun t => now - cfg.windowMs < t) ++ [now])) := by
  subst hcfg
  have hwQ : (0 : ℚ) < (window : ℚ) := by exact_mod_cast Nat.lt_of_lt_of_le Nat.zero_lt_one hw
  have hδQ : (0 : ℚ) < (δ : ℚ) := by exact_mod_cast Nat.lt_of_lt_of_le Nat.zero_lt_one hδ
  have hS := SlidingWindow.run_scenario cap window δ t0 hδw cap le_rfl
  refine ⟨?_, ?_, ?_, ?_, ?_, ?_⟩
  · -- the first cap checks are all allowed
    intro k hk
    rw [SlidingWindow.run_scenario cap window δ t0 hδw k (le_of_lt hk),
      SlidingWindow.checkLimit_allowed_of]
    · intro t ht
      obtain ⟨i, hi, rfl⟩ := List.mem_map.mp ht
      have hi2 := List.mem_range.mp hi
      have h1 : (k - i) * δ < window :=
        lt_of_le_of_lt (Nat.mul_le_mul_right δ (by omega)) hδw
      have h2 : (((k - i) * δ : ℕ) : ℚ) < ((window : ℕ) : ℚ) := by exact_mod_cast h1
      push_cast [Nat.cast_sub (le_of_lt hi2)] at h2
      rw [sub_mul] at h2
      show t0 + (k : ℚ) * (δ : ℚ) - _ < _
      have hwproj : ((⟨(cap : ℚ), (window : ℚ)⟩ : RateLimitConfig)).windowMs = (window : ℚ) := rfl
      rw [hwproj]
      linarith
    · have hlen : ((List.range k).map (fun i : ℕ => t0 + (i : ℚ) * (δ : ℚ))).length = k := by
        simp
      rw [hlen]
      show (k : ℚ) < (cap : ℚ)
      exact_mod_cast hk
  · -- denied while the oldest admission is still inside the window
    intro u _ hu2
    have hkeepU : ∀ t ∈ (List.range cap).map (fun i : ℕ => t0 + (i : ℚ) * (δ : ℚ)),
        u - ((⟨(cap : ℚ), (window : ℚ)⟩ : RateLimitConfig)).windowMs < t := by
      intro t ht
      obtain ⟨i, hi, rfl⟩ := List.mem_map.mp ht
      have hpos : (0 : ℚ) ≤ (i : ℚ) * (δ : ℚ) := by positivity
      show u - (window : ℚ) < _
      linarith
    have hlenU : ¬ ((((List.range cap).map (fun i : ℕ => t0 + (i : ℚ) * (δ : ℚ))).length : ℚ)
        < ((⟨(cap : ℚ), (window : ℚ)⟩ : RateLimitConfig)).maxRequests) := by
      simp only [List.length_map, List.length_range]
      show ¬ ((cap : ℚ) < (cap : ℚ))
      exact lt_irrefl _
    have hmin : SlidingWindow.jsMin
        ((List.range cap).map (fun i : ℕ => t0 + (i : ℚ) * (δ : ℚ))) = t0 := by
      apply SlidingWindow.jsMin_eq
      · apply List.length_pos.mp
        simp
        omega
      · refine List.mem_map.mpr ⟨0, List.mem_range.mpr (by omega), ?_⟩
        norm_num
      · intro x hx
        obtain ⟨i, hi, rfl⟩ := List.mem_map.mp hx
        have hpos : (0 : ℚ) ≤ (i : ℚ) * (δ : ℚ) := by positivity
        linarith
    rw [hS, SlidingWindow.checkLimit_denied_of _ _ _ hkeepU hlenU]
    refine ⟨rfl, ?_, rfl⟩
    rw [hmin]
  · -- at t0 + window, one more check is allowed
    obtain ⟨m, hm⟩ : ∃ m, cap = m + 1 := ⟨cap - 1, by omega⟩
    subst hm
    rw [hS]
    have h1 : (List.range (m + 1)).map (fun i : ℕ => t0 + (i : ℚ) * (δ : ℚ))
        = (t0 + ((0 : ℕ) : ℚ) * (δ : ℚ))
          :: (List.range m).map ((fun i : ℕ => t0 + (i : ℚ) * (δ : ℚ)) ∘ Nat.succ) := by
      rw [List.range_succ_eq_map, List.map_cons, List.map_map]
    have hp0 : ¬ ((t0 + (window : ℚ)) - (window : ℚ) < t0 + ((0 : ℕ) : ℚ) * (δ : ℚ)) := by
      push_cast
      linarith
    have hfr : ((List.range m).map ((fun i : ℕ => t0 + (i : ℚ) * (δ : ℚ)) ∘ Nat.succ)).filter
          (fun t => (t0 + (window : ℚ))
            - ((⟨((m + 1 : ℕ) : ℚ), (window : ℚ)⟩ : RateLimitConfig)).windowMs < t)
        = (List.range m).map ((fun i : ℕ => t0 + (i : ℚ) * (δ : ℚ)) ∘ Nat.succ) := by
      apply List.filter_eq_self.mpr
      intro t ht
      obtain ⟨i, hi, rfl⟩ := List.mem_map.mp ht
      simp only [Function.comp_apply, decide_eq_true_eq]
      show (t0 + (window : ℚ)) - (window : ℚ) < t0 + ((Nat.succ i : ℕ) : ℚ) * (δ : ℚ)
      have hpos : (0 : ℚ) < ((i : ℚ) + 1) * (δ : ℚ) := by positivity
      push_cast
      linarith
    have hfilter : ((List.range (m + 1)).map (fun i : ℕ => t0 + (i : ℚ) * (δ : ℚ))).filter
          (fun t => (t0 + (window : ℚ))
            - ((⟨((m + 1 : ℕ) : ℚ), (window : ℚ)⟩ : RateLimitConfig)).windowMs < t)
        = (List.range m).map ((fun i : ℕ => t0 + (i : ℚ) * (δ : ℚ)) ∘ Nat.succ) := by
      rw [h1, List.filter_cons, if_neg (by simp only [decide_eq_true_eq]; exact hp0), hfr]
    rw [SlidingWindow.checkLimit_eval _ _ _ _ hfilter]
    have hc : ((((List.range m).map ((fun i : ℕ => t0 + (i : ℚ) * (δ : ℚ)) ∘ Nat.succ)).length : ℚ)
        < ((⟨((m + 1 : ℕ) : ℚ), (window : ℚ)⟩ : RateLimitConfig)).maxRequests) := by
      simp only [List.length_map, List.length_range]
      show (m : ℚ) < ((m + 1 : ℕ) : ℚ)
      push_cast
      linarith
    rw [if_pos hc]
  · -- and the very next check at t0 + window is denied again
    obtain ⟨m, hm⟩ : ∃ m, cap = m + 1 := ⟨cap - 1, by omega⟩
    subst hm
    rw [hS]
    have h1 : (List.range (m + 1)).map (fun i : ℕ => t0 + (i : ℚ) * (δ : ℚ))
        = (t0 + ((0 : ℕ) : ℚ) * (δ : ℚ))
          :: (List.range m).map ((fun i : ℕ => t0 + (i : ℚ) * (δ : ℚ)) ∘ Nat.succ) := by
      rw [List.range_succ_eq_map, List.map_cons, List.map_map]
    have hp0 : ¬ ((t0 + (window : ℚ)) - (window : ℚ) < t0 + ((0 : ℕ) : ℚ) * (δ : ℚ)) := by
      push_cast
      linarith
    have hfr : ((List.range m).map ((fun i : ℕ => t0 + (i : ℚ) * (δ : ℚ)) ∘ Nat.succ)).filter
          (fun t => (t0 + (window : ℚ))
            - ((⟨((m + 1 : ℕ) : ℚ), (window : ℚ)⟩ : RateLimitConfig)).windowMs < t)
        = (List.range m).map ((fun i : ℕ => t0 + (i : ℚ) * (δ : ℚ)) ∘ Nat.succ) := by
      apply List.filter_eq_self.mpr
      intro t ht
      obtain ⟨i, hi, rfl⟩ := List.mem_map.mp ht
      simp only [Function.comp_apply, decide_eq_true_eq]
      show (t0 + (window : ℚ)) - (window : ℚ) < t0 + ((Nat.succ i : ℕ) : ℚ) * (δ : ℚ)
      have hpos : (0 : ℚ) < ((i : ℚ) + 1) * (δ : ℚ) := by positivity
      push_cast
      linarith
    have hfilter : ((List.range (m + 1)).map (fun i : ℕ => t0 + (i : ℚ) * (δ : ℚ))).filter
          (fun t => (t0 + (window : ℚ))
            - ((⟨((m + 1 : ℕ) : ℚ), (window : ℚ)⟩ : RateLimitConfig)).windowMs < t)
        = (List.range m).map ((fun i : ℕ => t0 + (i : ℚ) * (δ : ℚ)) ∘ Nat.succ) := by
      rw [h1, List.filter_cons, if_neg (by simp only [decide_eq_true_eq]; exact hp0), hfr]
    have hc : ((((List.range m).map ((fun i : ℕ => t0 + (i : ℚ) * (δ : ℚ)) ∘ Nat.succ)).length : ℚ)
        < ((⟨((m + 1 : ℕ) : ℚ), (window : ℚ)⟩ : RateLimitConfig)).maxRequests) := by
      simp only [List.length_map, List.length_range]
      show (m : ℚ) < ((m + 1 : ℕ) : ℚ)
      push_cast
      linarith
    rw [SlidingWindow.checkLimit_eval _ _ _ _ hfilter, if_pos hc]
    have hkeep2 : ∀ t ∈ (List.range m).map ((fun i : ℕ => t0 + (i : ℚ) * (δ : ℚ)) ∘ Nat.succ)
          ++ [t0 + (window : ℚ)],
        (t0 + (window : ℚ))
          - ((⟨((m + 1 : ℕ) : ℚ), (window : ℚ)⟩ : RateLimitConfig)).windowMs < t := by
      intro t ht
      rcases List.mem_append.mp ht with ht1 | ht2
      · obtain ⟨i, hi, rfl⟩ := List.mem_map.mp ht1
        show (t0 + (window : ℚ)) - (window : ℚ) < _
        simp only [Function.comp_apply]
        have hpos : (0 : ℚ) < ((i : ℚ) + 1) * (δ : ℚ) := by positivity
        push_cast
        linarith
      · rcases List.mem_singleton.mp ht2 with rfl
        show (t0 + (window : ℚ)) - (window : ℚ) < t0 + (window : ℚ)
        linarith
    have hlen2 : ¬ (((((List.range m).map ((fun i : ℕ => t0 + (i : ℚ) * (δ : ℚ)) ∘ Nat.succ))
          ++ [t0 + (window : ℚ)]).length : ℚ)
        < ((⟨((m + 1 : ℕ) : ℚ), (window : ℚ)⟩ : RateLimitConfig)).maxRequests) := by
      simp only [List.length_append, List.length_map, List.length_range,
        List.length_singleton]
      show ¬ (((m + 1 : ℕ) : ℚ) < ((m + 1 : ℕ) : ℚ))
      exact lt_irrefl _
    rw [SlidingWindow.checkLimit_denied_of _ _ _ hkeep2 hlen2]
  · -- frame invariants
    intro reqs now
    constructor
    · intro t ht
      rw [SlidingWindow.checkLimit_eval _ _ _ _ rfl] at ht
      dsimp only at ht ⊢
      split_ifs at ht with hc
      · rcases List.mem_append.mp ht with ht1 | ht2
        · exact of_decide_eq_true (List.mem_filter.mp ht1).2
        · rcases List.mem_singleton.mp ht2 with rfl
          linarith
      · exact of_decide_eq_true (List.mem_filter.mp ht).2
    · intro hlen
      rw [SlidingWindow.checkLimit_eval _ _ _ _ rfl]
      dsimp only
      split_ifs with hc
      · have hcN : (reqs.filter (fun t => now - (window : ℚ) < t)).length < cap := by
          exact_mod_cast hc
        simp only [List.length_append, List.length_singleton]
        omega
      · exact le_trans (List.length_filter_le _ _) hlen
  · -- admission is decided by the post-filter occupancy, recording now
    intro reqs now
    rw [SlidingWindow.checkLimit_eval _ _ _ _ rfl]
    split_ifs with hc
    · exact ⟨by simpa using hc, fun _ => rfl⟩
    · constructor
      · simpa using hc
      · intro habs
        simp at habs

/-- Witness for C4 at capacity 2, window 1000 ms, gap 1 ms, starting at
time 0: the check at `t0 + window` (after both admissions) is allowed. -/
theorem C4_witness :
    (SlidingWindow.checkLimit ⟨((2 : ℕ) : ℚ), ((1000 : ℕ) : ℚ)⟩ (0 + ((1000 : ℕ) : ℚ))
        (SlidingWindow.run ⟨((2 : ℕ) : ℚ), ((1000 : ℕ) : ℚ)⟩
          ((List.range 2).map (fun i : ℕ => 0 + (i : ℚ) * ((1 : ℕ) : ℚ))) [])).1.allowed
      = true :=
  (C4_sliding_window_checkLimit 2 1000 1 0 ⟨((2 : ℕ) : ℚ), ((1000 : ℕ) : ℚ)⟩
    (by decide) (by decide) (by decide) (by decide) rfl).2.2.1

/-! ## Theorems about the multi-tier dispatcher -/

/-- A tier name resolves to a limiter after construction iff it resolves to a
configuration entry. -/
lemma MultiTier.mk0_lookup_none (configs : List (String × TierConfig)) (t0 : ℚ)
    (tier : String) :
    ((MultiTier.mk0 configs t0).limiters.lookup tier = none)
      ↔ (configs.lookup tier = none) := by
  induction configs with
  | nil => simp [MultiTier.mk0]
  | cons p rest ih =>
      obtain ⟨name, tc⟩ := p
      by_cases h : (tier == name)
      · cases htc : tc.type.getD LimiterType.tokenBucket <;>
          simp [MultiTier.mk0, List.lookup, htc, h]
      · cases htc : tc.type.getD LimiterType.tokenBucket <;>
          simp only [MultiTier.mk0, List.map_cons, List.lookup, htc, h,
            Bool.false_eq_true, if_false] <;>
          exact ih

/-- C8: requesting a never-configured tier raises the configuration error;
for a configured tier `checkLimit` never throws — it returns the result of the limiter
 (denial included) as a value. -/
theorem C8_multi_tier_unknown_is_fatal (configs : List (String × TierConfig))
    (tier : String) (now t0 : ℚ) (m : MultiTier)
    (hm : m = MultiTier.mk0 configs t0) :
    (m.limiters.lookup tier = none →
        m.checkLimit tier now = Except.error ("Unknown rate limit tier: " ++ tier))
      ∧ (∀ l, m.limiters.lookup tier = some l →
          m.checkLimit tier now
            = Except.ok ((l.checkLimit now).1,
                ⟨m.limiters.map (fun q => if q.1 = tier then (tier, (l.checkLimit now).2) else q)⟩))
      ∧ (m.limiters.lookup tier = none ↔ configs.lookup tier = none) := by
  subst hm
  refine ⟨?_, ?_, MultiTier.mk0_lookup_none configs t0 tier⟩
  · intro hnone
    unfold MultiTier.checkLimit
    rw [hnone]
  · intro l hsome
    unfold MultiTier.checkLimit
    rw [hsome]

/-- Witness for C8: a one-tier configuration; the unconfigured tier `b` is a
fatal error. -/
theorem C8_witness :
    (MultiTier.mk0 [("a", ⟨⟨2, 1000⟩, none⟩)] 0).checkLimit "b" 0
      = Except.error ("Unknown rate limit tier: " ++ "b") :=
  (C8_multi_tier_unknown_is_fatal [("a", ⟨⟨2, 1000⟩, none⟩)] "b" 0 0
    (MultiTier.mk0 [("a", ⟨⟨2, 1000⟩, none⟩)] 0) rfl).1 (by decide)

/-! ## Theorems about the LRU + TTL cache -/

lemma lookup_map_replace {β : Type} (m : List (String × β)) (k : String) (v : β) :
    (m.map (fun p => if p.1 = k then (k, v) else p)).lookup k
      = if (m.lookup k).isSome then some v else none := by
  induction m with
  | nil => simp [List.lookup]
  | cons p rest ih =>
      obtain ⟨k1, v1⟩ := p
      by_cases hk : k1 = k
      · subst hk
        simp only [List.map_cons]
        simp [List.lookup]
      · have hne : (k == k1) = false := by
          simp [Ne.symm hk]
        simp only [List.map_cons, if_neg (by simpa using hk)]
        simp only [List.lookup, hne, Bool.false_eq_true, if_false]
        exact ih

lemma mapSet_lookup_self {β : Type} (m : List (String × β)) (k : String) (v : β) :
    (mapSet m k v).lookup k = some v := by
  unfold mapSet
  by_cases h : (m.lookup k).isSome
  · rw [if_pos h, lookup_map_replace, if_pos h]
  · rw [if_neg h]
    induction m with
    | nil => simp [List.lookup]
    | cons p rest ih =>
        obtain ⟨k1, v1⟩ := p
        by_cases hk : (k == k1)
        · exact absurd (by simp [List.lookup, hk]) h
        · have hrest : ¬ (rest.lookup k).isSome = true := by
            intro habs
            exact h (by simp [List.lookup, hk, habs])
          simp only [List.cons_append, List.lookup, hk, Bool.false_eq_true, if_false]
          exact ih hrest

lemma mapDelete_lookup_self {β : Type} (m : List (String × β)) (k : String) :
    (mapDelete m k).lookup k = none := by
  unfold mapDelete
  induction m with
  | nil => rfl
  | cons p rest ih =>
      obtain ⟨k1, v1⟩ := p
      by_cases hk : k1 = k
      · subst hk
        simpa using ih
      · have hne : (k == k1) = false := by simp [Ne.symm hk]
        simpa [List.filter_cons, hk, List.lookup, hne] using ih

/-- C5: the specification says inserting `maxSize + 1` distinct keys with no
reads in between evicts exactly the first-inserted key, so the cache never
holds more than `maxSize` entries, and `set` on an existing key does not
evict.  The eviction guard `if (lruKey)` is falsy for the empty-string key,
so when the least-recently-used key is `""` nothing is evicted and the map
grows past `maxSize`: with `maxSize = 1`, inserting `""` then `"x"` leaves
both entries (size 2), while inserting `"y"` then `"x"` correctly evicts
`"y"` (size 1). -/
theorem C5_cache_lru_eviction_empty_key :
    (((LRUCache.init ℕ ⟨1, 10, 0⟩).set "" 1 none 0).set "x" 2 none 0).cache.length = 2
      ∧ (((LRUCache.init ℕ ⟨1, 10, 0⟩).set "" 1 none 0).set "x" 2 none 0).options.maxSize = 1
      ∧ ((((LRUCache.init ℕ ⟨1, 10, 0⟩).set "" 1 none 0).set "x" 2 none 0).cache.lookup
          "").isSome = true
      ∧ (((LRUCache.init ℕ ⟨1, 10, 0⟩).set "y" 1 none 0).set "x" 2 none 0).cache.length = 1
      ∧ (((LRUCache.init ℕ ⟨1, 10, 0⟩).set "y" 1 none 0).set "x" 2 none 0).cache.lookup "y"
          = none := by decide

/-- C6: `get` on an expired entry (`now > timestamp + ttl`) misses and
removes the entry, so a subsequent `has` is false; and every `get` increments
`totalRequests`, increments exactly one of `hits`/`misses`, and sets
`hitRate = hits / totalRequests`. -/
theorem C6_cache_expiry_and_stats {α : Type} (c : LRUCache α) (k : String)
    (e : CacheEntry α) (now : ℤ)
    (hfind : c.cache.lookup k = some e) (hexp : now > e.timestamp + e.ttl) :
    (c.get k now).1 = none
      ∧ ((c.get k now).2).cache.lookup k = none
      ∧ (∀ now2 : ℤ, (((c.get k now).2).has k now2).1 = false)
      ∧ (∀ (c2 : LRUCache α) (k2 : String) (n2 : ℤ),
          ((c2.get k2 n2).2).stats.totalRequests = c2.stats.totalRequests + 1
            ∧ (((c2.get k2 n2).2).stats.hits = c2.stats.hits + 1
                  ∧ ((c2.get k2 n2).2).stats.misses = c2.stats.misses
                ∨ ((c2.get k2 n2).2).stats.misses = c2.stats.misses + 1
                  ∧ ((c2.get k2 n2).2).stats.hits = c2.stats.hits)
            ∧ ((c2.get k2 n2).2).stats.hitRate
                = (((c2.get k2 n2).2).stats.hits : ℚ)
                    / (((c2.get k2 n2).2).stats.totalRequests : ℚ)) := by
  have hdel : ((c.get k now).2).cache.lookup k = none := by
    simp only [LRUCache.get, hfind, if_pos hexp]
    exact mapDelete_lookup_self c.cache k
  refine ⟨?_, hdel, ?_, ?_⟩
  · simp only [LRUCache.get, hfind, if_pos hexp]
  · intro now2
    simp only [LRUCache.has, hdel]
  · intro c2 k2 n2
    cases hl : c2.cache.lookup k2 with
    | none =>
        refine ⟨?_, Or.inr ⟨?_, ?_⟩, ?_⟩ <;>
          simp [LRUCache.get, hl, LRUCache.updateHitRate, Nat.succ_pos]
    | some entry =>
        by_cases hx : n2 > entry.timestamp + entry.ttl
        · refine ⟨?_, Or.inr ⟨?_, ?_⟩, ?_⟩ <;>
            simp [LRUCache.get, hl, hx, LRUCache.updateHitRate, Nat.succ_pos]
        · refine ⟨?_, Or.inl ⟨?_, ?_⟩, ?_⟩ <;>
            simp [LRUCache.get, hl, hx, LRUCache.updateHitRate, Nat.succ_pos]

/-- Witness for C6: a fresh entry with ttl 10 written at time 0 misses at
time 11. -/
theorem C6_witness :
    (((LRUCache.init ℕ ⟨10, 10, 0⟩).set "a" 5 none 0).get "a" 11).1 = none :=
  (C6_cache_expiry_and_stats ((LRUCache.init ℕ ⟨10, 10, 0⟩).set "a" 5 none 0) "a"
    ⟨5, 0, 10, "a"⟩ 11 (by decide) (by decide)).1

/-- C7: `set(k, v, ttl)` with a strictly positive (hence truthy and not yet
elapsed) ttl, immediately followed by `get(k)` at the same instant, returns
`v`. -/
theorem C7_cache_set_get_roundtrip {α : Type} (c : LRUCache α) (k : String) (v : α)
    (ttl now : ℤ) (h : 0 < ttl) :
    ((c.set k v (some ttl) now).get k now).1 = some v := by
  have httl : LRUCache.jsOrTtl (some ttl) c.options.defaultTtl = ttl := by
    simp only [LRUCache.jsOrTtl]
    rw [if_neg (show ¬ ttl = 0 by omega)]
  have hl : ((c.set k v (some ttl) now).cache).lookup k
      = some ⟨v, now, ttl, k⟩ := by
    simp only [LRUCache.set, httl]
    exact mapSet_lookup_self _ k _
  simp only [LRUCache.get, hl, if_neg (show ¬ now > now + ttl by omega)]

/-- Witness for C7 on a concrete cache. -/
theorem C7_witness :
    (((LRUCache.init ℕ ⟨10, 10, 0⟩).set "a" 5 (some 7) 0).get "a" 0).1 = some 5 :=
  C7_cache_set_get_roundtrip (LRUCache.init ℕ ⟨10, 10, 0⟩) "a" 5 7 0 (by decide)

/-- C9: `has` on an absent key, or on a present and unexpired key, leaves the
whole cache state (entries, access order, counter, statistics) unchanged, and
reports exactly whether the key is present. -/
theorem C9_cache_has_nonmutating {α : Type} (c : LRUCache α) (k : String) (now : ℤ)
    (h : c.cache.lookup k = none
        ∨ ∃ e, c.cache.lookup k = some e ∧ ¬ now > e.timestamp + e.ttl) :
    (c.has k now).2 = c ∧ (c.has k now).1 = (c.cache.lookup k).isSome := by
  rcases h with hnone | ⟨e, he, hne⟩
  · constructor <;> simp [LRUCache.has, hnone]
  · constructor <;> simp [LRUCache.has, he, hne]

/-- Witness for C9: an unexpired entry probed at time 3. -/
theorem C9_witness :
    (((LRUCache.init ℕ ⟨10, 10, 0⟩).set "a" 5 none 0).has "a" 3).2
        = (LRUCache.init ℕ ⟨10, 10, 0⟩).set "a" 5 none 0 :=
  (C9_cache_has_nonmutating ((LRUCache.init ℕ ⟨10, 10, 0⟩).set "a" 5 none 0) "a" 3
    (Or.inr ⟨⟨5, 0, 10, "a"⟩, by decide, by decide⟩)).1

/-- C10: `set` with a falsy ttl argument (absent, or the number 0) stores the
entry with the configured `defaultTtl` — `ttl || defaultTtl` — so an explicit
ttl of 0 never means immediate expiry, and (for a nonnegative default) the
entry is not already expired at its own creation instant. -/
theorem C10_cache_falsy_ttl_uses_default {α : Type} (c : LRUCache α) (k : String)
    (v : α) (t : Option ℤ) (now : ℤ) (h : t = none ∨ t = some 0) :
    ((c.set k v t now).cache).lookup k = some ⟨v, now, c.options.defaultTtl, k⟩
      ∧ LRUCache.jsOrTtl t c.options.defaultTtl = c.options.defaultTtl
      ∧ (0 ≤ c.options.defaultTtl →
          ¬ now > now + LRUCache.jsOrTtl t c.options.defaultTtl) := by
  have httl : LRUCache.jsOrTtl t c.options.defaultTtl = c.options.defaultTtl := by
    rcases h with rfl | rfl
    · rfl
    · simp [LRUCache.jsOrTtl]
  refine ⟨?_, httl, ?_⟩
  · simp only [LRUCache.set, httl]
    exact mapSet_lookup_self _ k _
  · intro h0
    rw [httl]
    omega

/-- Witness for C10: `set` with an explicit ttl of 0 stores `defaultTtl = 10`. -/
theorem C10_witness :
    (((LRUCache.init ℕ ⟨10, 10, 0⟩).set "a" 5 (some 0) 0).cache).lookup "a"
      = some ⟨5, 0, (LRUCache.init ℕ ⟨10, 10, 0⟩).options.defaultTtl, "a"⟩ :=
  (C10_cache_falsy_ttl_uses_default (LRUCache.init ℕ ⟨10, 10, 0⟩) "a" 5 (some 0) 0
    (Or.inr rfl)).1

end BitbucketMcp
